import Mathlib

/-
Verification of the csv-to-yaml sample-configuration generator
(sampleconf/csv2yaml.py) against its specification.

The development shallowly embeds the program: the CSV record parser
(parse_readunits_from_csv), the MD5-based read-unit key derivation
(key_for_readunit), the grouping of read units into samples (main),
and the block-style serialization of the resulting document
(yaml.dump with aliasing disabled).  Machine integers are modelled as
Nat with explicit reduction modulo 2 ^ 32 where the hash needs it;
fallible code returns Except.  All definitions are executable so the
theorems can be instantiated on concrete inputs.
-/

set_option maxRecDepth 1000000

namespace Csv2Yaml

/-- A read unit is the insertion-ordered mapping from field name to string
value that the source builds as a Python dict, one per CSV data row. -/
abbrev ReadUnit := List (String × String)

/-! ## Basic string utilities mirroring the Python built-ins used -/

/-- Whitespace recognised by the model of str.strip: space, tab, newline,
carriage return, vertical tab and form feed (the ASCII characters Python
str.strip removes; further Unicode whitespace does not occur in the data
handled here). -/
def pySpace (c : Char) : Bool :=
  c == ' ' || c == '\t' || c == '\n' || c == '\r' || c == '\x0b' || c == '\x0c'

/-- Model of Python str.strip(): drop leading and trailing whitespace. -/
def pyStrip (s : String) : String :=
  String.mk (((s.data.dropWhile pySpace).reverse.dropWhile pySpace).reverse)

/-- Model of os.path.basename: the suffix after the last slash (empty when
the path ends in a slash, the whole string when there is no slash). -/
def basename (s : String) : String :=
  String.mk (s.data.foldl (fun acc c => if c = '/' then [] else acc ++ [c]) [])

/-- UTF-8 encoding of one character (code point to byte sequence), the
encoding Python str.encode() applies. -/
def utf8EncodeChar (c : Char) : List Nat :=
  let n := c.toNat
  if n < 128 then [n]
  else if n < 2048 then [192 + n / 64, 128 + n % 64]
  else if n < 65536 then [224 + n / 4096, 128 + n / 64 % 64, 128 + n % 64]
  else [240 + n / 262144, 128 + n / 4096 % 64, 128 + n / 64 % 64, 128 + n % 64]

/-- Model of Python str.encode(): UTF-8 bytes of a string. -/
def utf8Encode (s : String) : List Nat := (s.data.map utf8EncodeChar).flatten

/-- Code-point comparison of one character, as a boolean. -/
def charLtB (a b : Char) : Bool := Nat.blt a.toNat b.toNat

/-- Lexicographic code-point comparison of character lists; models the
comparison Python uses when sorting strings. -/
def ltChars : List Char → List Char → Bool
  | [], [] => false
  | [], _ :: _ => true
  | _ :: _, [] => false
  | a :: as, b :: bs =>
    if charLtB a b then true else if charLtB b a then false else ltChars as bs

/-- Lexicographic string comparison (Python string less-than). -/
def strLt (a b : String) : Bool := ltChars a.data b.data

/-! ## MD5 (hashlib.md5), on byte lists, words as Nat modulo 2 ^ 32 -/

/-- Reduce a Nat to a 32-bit machine word value. -/
def w32 (n : Nat) : Nat := n % 4294967296

/-- Left rotation of a 32-bit word (argument below 2 ^ 32). -/
def rotl (x c : Nat) : Nat := w32 (x * 2 ^ c) + x / 2 ^ (32 - c)

/-- The 64 MD5 sine-derived round constants. -/
def md5K : List Nat :=
  [0xd76aa478, 0xe8c7b756, 0x242070db, 0xc1bdceee,
   0xf57c0faf, 0x4787c62a, 0xa8304613, 0xfd469501,
   0x698098d8, 0x8b44f7af, 0xffff5bb1, 0x895cd7be,
   0x6b901122, 0xfd987193, 0xa679438e, 0x49b40821,
   0xf61e2562, 0xc040b340, 0x265e5a51, 0xe9b6c7aa,
   0xd62f105d, 0x02441453, 0xd8a1e681, 0xe7d3fbc8,
   0x21e1cde6, 0xc33707d6, 0xf4d50d87, 0x455a14ed,
   0xa9e3e905, 0xfcefa3f8, 0x676f02d9, 0x8d2a4c8a,
   0xfffa3942, 0x8771f681, 0x6d9d6122, 0xfde5380c,
   0xa4beea44, 0x4bdecfa9, 0xf6bb4b60, 0xbebfbc70,
   0x289b7ec6, 0xeaa127fa, 0xd4ef3085, 0x04881d05,
   0xd9d4d039, 0xe6db99e5, 0x1fa27cf8, 0xc4ac5665,
   0xf4292244, 0x432aff97, 0xab9423a7, 0xfc93a039,
   0x655b59c3, 0x8f0ccc92, 0xffeff47d, 0x85845dd1,
   0x6fa87e4f, 0xfe2ce6e0, 0xa3014314, 0x4e0811a1,
   0xf7537e82, 0xbd3af235, 0x2ad7d2bb, 0xeb86d391]

/-- The 64 MD5 per-round left-rotation amounts. -/
def md5S : List Nat :=
  [7, 12, 17, 22, 7, 12, 17, 22, 7, 12, 17, 22, 7, 12, 17, 22,
   5, 9, 14, 20, 5, 9, 14, 20, 5, 9, 14, 20, 5, 9, 14, 20,
   4, 11, 16, 23, 4, 11, 16, 23, 4, 11, 16, 23, 4, 11, 16, 23,
   6, 10, 15, 21, 6, 10, 15, 21, 6, 10, 15, 21, 6, 10, 15, 21]

/-- Little-endian byte decomposition of a number into k bytes. -/
def leBytes (k n : Nat) : List Nat := (List.range k).map fun i => n / 2 ^ (8 * i) % 256

/-- MD5 padding: a 0x80 byte, zeros up to 56 modulo 64, then the
little-endian 64-bit bit length of the message. -/
def md5Pad (ms : List Nat) : List Nat :=
  ms ++ 128 :: List.replicate ((119 - ms.length % 64) % 64) 0 ++ leBytes 8 (ms.length * 8)

/-- Split a byte list into 64-byte chunks; the fuel argument (instantiated
with the length) keeps the recursion structural. -/
def chunks64Go : Nat → List Nat → List (List Nat)
  | _, [] => []
  | 0, _ => []
  | fuel + 1, bs => bs.take 64 :: chunks64Go fuel (bs.drop 64)

/-- Split a byte list into 64-byte chunks. -/
def chunks64 (bs : List Nat) : List (List Nat) := chunks64Go bs.length bs

/-- The g-th little-endian 32-bit message word of a 64-byte chunk. -/
def chunkWord (chunk : List Nat) (g : Nat) : Nat :=
  chunk.getD (4 * g) 0 + 256 * chunk.getD (4 * g + 1) 0 +
    65536 * chunk.getD (4 * g + 2) 0 + 16777216 * chunk.getD (4 * g + 3) 0

/-- One of the 64 MD5 rounds: mixes the state (a, b, c, d) with the round
function, constant, message word and rotation of round i. -/
def md5Round (chunk : List Nat) (st : Nat × Nat × Nat × Nat) (i : Nat) :
    Nat × Nat × Nat × Nat :=
  let a := st.1
  let b := st.2.1
  let c := st.2.2.1
  let d := st.2.2.2
  let fg : Nat × Nat :=
    if i < 16 then ((b &&& c) ||| ((4294967295 ^^^ b) &&& d), i)
    else if i < 32 then ((d &&& b) ||| ((4294967295 ^^^ d) &&& c), (5 * i + 1) % 16)
    else if i < 48 then (b ^^^ c ^^^ d, (3 * i + 5) % 16)
    else (c ^^^ (b ||| (4294967295 ^^^ d)), (7 * i) % 16)
  let tmp := w32 (fg.1 + a + md5K.getD i 0 + chunkWord chunk fg.2)
  (d, w32 (b + rotl tmp (md5S.getD i 0)), b, c)

/-- Process one 64-byte chunk: run the 64 rounds and add the result to the
incoming state, wordwise modulo 2 ^ 32. -/
def md5Chunk (st : Nat × Nat × Nat × Nat) (chunk : List Nat) : Nat × Nat × Nat × Nat :=
  let r := (List.range 64).foldl (md5Round chunk) st
  (w32 (st.1 + r.1), w32 (st.2.1 + r.2.1), w32 (st.2.2.1 + r.2.2.1), w32 (st.2.2.2 + r.2.2.2))

/-- The 16-byte MD5 digest of a byte list. -/
def md5DigestBytes (ms : List Nat) : List Nat :=
  let st := (chunks64 (md5Pad ms)).foldl md5Chunk (0x67452301, 0xefcdab89, 0x98badcfe, 0x10325476)
  leBytes 4 st.1 ++ leBytes 4 st.2.1 ++ leBytes 4 st.2.2.1 ++ leBytes 4 st.2.2.2

/-- The sixteen lowercase hexadecimal digit characters. -/
def hexDigits : List Char := "0123456789abcdef".data

/-- Lowercase hexadecimal digit of a value (taken modulo 16). -/
def hexChar (n : Nat) : Char := hexDigits.getD (n % 16) '0'

/-- The 32 characters of the lowercase hex digest (hashlib hexdigest). -/
def md5HexChars (ms : List Nat) : List Char :=
  (md5DigestBytes ms).foldr (fun b acc => hexChar (b / 16) :: hexChar (b % 16) :: acc) []

/-- Model of hashlib.md5(ms).hexdigest(). -/
def md5Hex (ms : List Nat) : String := String.mk (md5HexChars ms)

/-! ## Key derivation (key_for_readunit) -/

/-- file_keys from key_for_readunit: the fields holding file paths. -/
def file_keys : List String := ["fq1", "fq2"]

/-- The bytes one field contributes to the hash in key_for_readunit: the
UTF-8 encoding of its value, with file-path fields first reduced to their
basename. -/
def keyFieldBytes (kv : String × String) : List Nat :=
  utf8Encode (if kv.1 ∈ file_keys then basename kv.2 else kv.2)

/-- Model of key_for_readunit: feed every field value (file-path values
reduced to their basename) into an MD5 object in iteration order — the
incremental m.update calls hash the concatenation of the per-field byte
strings — and keep the first 8 characters of the lowercase hex digest. -/
def key_for_readunit (ru : ReadUnit) : String :=
  String.mk ((md5HexChars (ru.foldl (fun acc kv => acc ++ keyFieldBytes kv) [])).take 8)

/-- The concatenated byte stream hashed for a read unit, written as a
map-and-flatten over the fields. -/
def keyInput (ru : ReadUnit) : List Nat := (ru.map keyFieldBytes).flatten

/-! ## Record parser (parse_readunits_from_csv) -/

/-- MANDATORY_FIELDS of the source. -/
def MANDATORY_FIELDS : List String := ["sample_id", "fq1"]

/-- RECOMMENDED_FIELDS of the source. -/
def RECOMMENDED_FIELDS : List String := ["fq2", "run_id", "flowcell_id", "lane_id", "library_id"]

/-- Split a character list at every occurrence of the delimiter; the
accumulator holds the current field reversed. -/
def csvSplitGo (delim : Char) : List Char → List Char → List String
  | acc, [] => [String.mk acc.reverse]
  | acc, c :: cs =>
    if c = delim then String.mk acc.reverse :: csvSplitGo delim [] cs
    else csvSplitGo delim (c :: acc) cs

/-- Field splitting of one non-blank line by the csv reader at a given
delimiter (the data handled here contains no quoting). -/
def csvSplit (delim : Char) (line : String) : List String := csvSplitGo delim [] line.data

/-- Model of looking a field up in a DictReader row: none when the field
name is not a header column (a Python KeyError); some none when the row is
shorter than the header, so the cell holds the restval None; some (some v)
for a present cell.  Duplicate header names do not occur in the inputs
considered. -/
def rowGet : List String → List String → String → Option (Option String)
  | [], _, _ => none
  | h :: hs, vals, f => if h = f then some vals.head? else rowGet hs vals.tail f

/-- Python truthiness of a cell: None and the empty string are falsy. -/
def truthy : Option String → Bool
  | none => false
  | some s => s != ""

/-- Body of the mandatory-field loop for one field f: a missing column is a
lookup failure, a falsy cell fails the assert naming the field, otherwise
the stripped value is stored under f. -/
def mandStep (header vals : List String) (ru : ReadUnit) (f : String) : Except String ReadUnit :=
  match rowGet header vals f with
  | none => Except.error ("KeyError: " ++ f)
  | some v =>
    if truthy v then Except.ok (ru ++ [(f, pyStrip (v.getD ""))])
    else Except.error ("Mandatory field " ++ f ++ " is empty")

/-- Body of the recommended-field loop for one field f: a missing column is
a lookup failure; a truthy cell is stored stripped; a falsy cell is
skipped. -/
def recStep (header vals : List String) (ru : ReadUnit) (f : String) : Except String ReadUnit :=
  match rowGet header vals f with
  | none => Except.error ("KeyError: " ++ f)
  | some v =>
    if truthy v then Except.ok (ru ++ [(f, pyStrip (v.getD ""))]) else Except.ok ru

/-- Body of the remaining-columns loop: any header column that is neither
mandatory nor recommended is copied verbatim, even when empty.  (For a row
shorter than the header the source would store Python None here; such rows
with auxiliary columns do not occur in the inputs considered.) -/
def auxStep (header vals : List String) (ru : ReadUnit) (f : String) : ReadUnit :=
  if f ∈ MANDATORY_FIELDS ∨ f ∈ RECOMMENDED_FIELDS then ru
  else ru ++ [(f, ((rowGet header vals f).getD (some "")).getD "")]

/-- Run a fallible per-field step over a field list, aborting at the first
failure — the for-loop-with-assert pattern of the source. -/
def foldSteps (step : ReadUnit → String → Except String ReadUnit) :
    ReadUnit → List String → Except String ReadUnit
  | ru, [] => Except.ok ru
  | ru, f :: fs =>
    match step ru f with
    | Except.error e => Except.error e
    | Except.ok ru2 => foldSteps step ru2 fs

/-- Processing of one data row: mandatory fields (assert non-falsy, store
stripped), then recommended fields (store stripped when truthy), then the
remaining header columns verbatim. -/
def processRow (header vals : List String) : Except String ReadUnit :=
  match foldSteps (mandStep header vals) [] MANDATORY_FIELDS with
  | Except.error e => Except.error e
  | Except.ok ru1 =>
    match foldSteps (recStep header vals) ru1 RECOMMENDED_FIELDS with
    | Except.error e => Except.error e
    | Except.ok ru2 => Except.ok (header.foldl (auxStep header vals) ru2)

/-- Header validation: every mandatory field must appear in the header. -/
def checkHeader (header : List String) : List String → Except String Unit
  | [] => Except.ok ()
  | f :: fs =>
    if f ∈ header then checkHeader header fs
    else Except.error ("Missing mandatory header/field: " ++ f)

/-- Process the data rows in order, collecting the read units; the first
failing row aborts the whole parse. -/
def parseRows (header : List String) (delim : Char) : List String → Except String (List ReadUnit)
  | [] => Except.ok []
  | line :: rest =>
    match processRow header (csvSplit delim line) with
    | Except.error e => Except.error e
    | Except.ok ru =>
      match parseRows header delim rest with
      | Except.error e => Except.error e
      | Except.ok rus => Except.ok (ru :: rus)

/-- The record parser, parametrised by the field delimiter the csv reader
splits on: first line is the header, mandatory header fields are checked
first, blank lines are skipped (DictReader skips empty raw rows), every
other line yields one read unit. -/
def parse_readunits_with_delim (delim : Char) (lines : List String) :
    Except String (List ReadUnit) :=
  match lines with
  | [] => Except.error "empty input: no header row"
  | headerLine :: dataLines =>
    let header := csvSplit delim headerLine
    match checkHeader header MANDATORY_FIELDS with
    | Except.error e => Except.error e
    | Except.ok _ => parseRows header delim (dataLines.filter (fun l => l != ""))

/-- Model of parse_readunits_from_csv: the source constructs
csv.DictReader(csvfile) without passing any delimiter, so the reader splits
on its default delimiter, the comma — the caller-supplied delimiter never
reaches the reader. -/
def parse_readunits_from_csv (lines : List String) : Except String (List ReadUnit) :=
  parse_readunits_with_delim ',' lines

/-- The default of the -d (--delimiter) command line option of main. -/
def DEFAULT_DELIMITER : Char := '\t'

/-! ## Grouping and serialization planner (main) -/

/-- First-occurrence lookup in an ordered association list (Python dict
read access for the dicts built here, whose keys are unique). -/
def alookup : List (String × α) → String → Option α
  | [], _ => none
  | p :: rest, k => if p.1 = k then some p.2 else alookup rest k

/-- The sort/group key of main: the sample_id value of a read unit.  (The
source indexes the dict directly; parsed read units always carry
sample_id, so the default is never consulted in the claims below.) -/
def sampleId (ru : ReadUnit) : String := (alookup ru "sample_id").getD ""

/-- Insert an element into a list sorted by a string key, before any
element with an equal key coming from further right — the standard stable
insertion. -/
def insertSortedBy (key : α → String) (a : α) : List α → List α
  | [] => [a]
  | b :: rest =>
    if strLt (key b) (key a) then b :: insertSortedBy key a rest else a :: b :: rest

/-- Stable sort by a string key; agrees with Python sorted(key=...) because
a stable sort of a list by a given key is unique. -/
def sortBy (key : α → String) (l : List α) : List α := l.foldr (insertSortedBy key) []

/-- Partition a list into maximal runs of consecutive elements sharing a
key, each tagged with that key — itertools.groupby. -/
def runsBy (key : α → String) : List α → List (String × List α)
  | [] => []
  | a :: rest =>
    match runsBy key rest with
    | [] => [(key a, [a])]
    | (k, g) :: rs =>
      if key a = k then (k, a :: g) :: rs else (key a, [a]) :: (k, g) :: rs

/-- Python dict assignment d[k] = v on an insertion-ordered association
list: replace in place when the key exists, else append. -/
def dictInsert (m : List (String × α)) (k : String) (v : α) : List (String × α) :=
  match m with
  | [] => [(k, v)]
  | p :: rest => if p.1 = k then (k, v) :: rest else p :: dictInsert rest k v

/-- The readunits dict of one sample: insert every read unit of the run
under its derived key, in run order (later entries overwrite earlier ones
on key collision). -/
def buildReadunitsMap (g : List ReadUnit) : List (String × ReadUnit) :=
  g.foldl (fun m ru => dictInsert m (key_for_readunit ru) ru) []

/-- The value stored per sample: a dict with the single key readunits. -/
abbrev SampleVal := List (String × List (String × ReadUnit))

/-- The grouping loop of main: stable-sort the read units by sample_id,
partition into runs of equal sample_id, and build one sample per run. -/
def buildSamples (rus : List ReadUnit) : List (String × SampleVal) :=
  (runsBy sampleId (sortBy sampleId rus)).foldl
    (fun m kg => dictInsert m kg.1 [("readunits", buildReadunitsMap kg.2)]) []

/-- The readunits mapping of the sample sid in a built document. -/
def readunitsOf (samples : List (String × SampleVal)) (sid : String) :
    List (String × ReadUnit) :=
  (alookup ((alookup samples sid).getD []) "readunits").getD []

/-- Per-sample read-unit counts of the built document, in document order. -/
def samplesSummary (rus : List ReadUnit) : List (String × Nat) :=
  (buildSamples rus).map fun p => (p.1, ((alookup p.2 "readunits").getD []).length)

/-! ## Serialization (yaml.dump, block style, sorted keys, no aliases) -/

/-- Render the fields of one read unit, one "key: value" line each, keys
sorted as the dumper sorts mapping keys. -/
def renderRU (ru : ReadUnit) : String :=
  (sortBy Prod.fst ru).foldl
    (fun acc kv => acc ++ "        " ++ kv.1 ++ ": " ++ kv.2 ++ "\n") ""

/-- Render one keyed read-unit entry of a readunits mapping, fully
expanded: the key line followed by the complete field rendering. -/
def renderEntryRU (p : String × ReadUnit) : String :=
  "      " ++ p.1 ++ ":\n" ++ renderRU p.2

/-- Render read-unit entries in order, each independently and in full — the
dumper has aliasing disabled (yaml.Dumper.ignore_aliases is patched to
return True), so equal values are re-rendered, never back-referenced. -/
def renderEntriesRU : List (String × ReadUnit) → String
  | [] => ""
  | p :: rest => renderEntryRU p ++ renderEntriesRU rest

/-- Render a readunits mapping with its keys sorted. -/
def renderRUMap (m : List (String × ReadUnit)) : String :=
  renderEntriesRU (sortBy Prod.fst m)

/-- Render one sample value (the dict with the readunits key). -/
def renderSampleVal (sv : SampleVal) : String :=
  (sortBy Prod.fst sv).foldl (fun acc p => acc ++ "    " ++ p.1 ++ ":\n" ++ renderRUMap p.2) ""

/-- Render the samples mapping with its keys sorted. -/
def renderSamples (samples : List (String × SampleVal)) : String :=
  (sortBy Prod.fst samples).foldl
    (fun acc p => acc ++ "  " ++ p.1 ++ ":\n" ++ renderSampleVal p.2) ""

/-- Render the whole configuration document dict(samples=samples). -/
def renderDoc (samples : List (String × SampleVal)) : String :=
  "samples:\n" ++ renderSamples samples

/-- Decidable equality for Except results, used to evaluate the parser on
concrete inputs. -/
instance [DecidableEq ε] [DecidableEq α] : DecidableEq (Except ε α) := fun a b =>
  match a, b with
  | Except.error e1, Except.error e2 =>
    if h : e1 = e2 then Decidable.isTrue (by rw [h])
    else Decidable.isFalse (fun hc => h (Except.error.inj hc))
  | Except.error _, Except.ok _ => Decidable.isFalse (fun hc => Except.noConfusion hc)
  | Except.ok _, Except.error _ => Decidable.isFalse (fun hc => Except.noConfusion hc)
  | Except.ok a1, Except.ok a2 =>
    if h : a1 = a2 then Decidable.isTrue (by rw [h])
    else Decidable.isFalse (fun hc => h (Except.ok.inj hc))

/-- Positionwise comparison of two read units by a relation on fields:
true when both have the same length and every corresponding field pair is
related.  Used to state congruence properties of the key derivation. -/
def pairedBy (R : (String × String) → (String × String) → Bool) : ReadUnit → ReadUnit → Bool
  | [], [] => true
  | kv1 :: r1, kv2 :: r2 => R kv1 kv2 && pairedBy R r1 r2
  | _, _ => false

/-- Two fields with the same name whose values agree after basename
reduction for file-path fields (and exactly for all other fields). -/
def sameBasenameFields (kv1 kv2 : String × String) : Bool :=
  kv1.1 == kv2.1 &&
    (if kv1.1 ∈ file_keys then basename kv1.2 == basename kv2.2 else kv1.2 == kv2.2)

/-- Two fields with the same raw value whose names agree on membership in
the file-path field set, though the names themselves may differ. -/
def sameValuePattern (kv1 kv2 : String × String) : Bool :=
  kv1.2 == kv2.2 && (decide (kv1.1 ∈ file_keys) == decide (kv2.1 ∈ file_keys))

/-! ## Order facts for the string comparison -/

theorem charLtB_iff (a b : Char) : charLtB a b = true ↔ a.toNat < b.toNat := by
  simp [charLtB, Nat.blt_eq]

theorem charLtB_true (a b : Char) (h : a.toNat < b.toNat) : charLtB a b = true :=
  (charLtB_iff a b).mpr h

theorem charLtB_false (a b : Char) (h : ¬ a.toNat < b.toNat) : charLtB a b = false := by
  cases hcb : charLtB a b with
  | false => rfl
  | true => exact absurd ((charLtB_iff a b).mp hcb) h

theorem char_eq_of_toNat (a b : Char) (h : a.toNat = b.toNat) : a = b :=
  Char.ext (UInt32.ext h)

theorem ltChars_irrefl : ∀ l : List Char, ltChars l l = false
  | [] => rfl
  | a :: as => by
    have h : charLtB a a = false := charLtB_false a a (by omega)
    simp [ltChars, h, ltChars_irrefl as]

theorem ltChars_asymm : ∀ l1 l2 : List Char,
    ltChars l1 l2 = true → ltChars l2 l1 = false
  | [], [] => by simp [ltChars]
  | [], _ :: _ => by simp [ltChars]
  | _ :: _, [] => by simp [ltChars]
  | a :: as, b :: bs => by
    intro h
    by_cases hab : a.toNat < b.toNat
    · have hba : charLtB b a = false := charLtB_false b a (by omega)
      have hab2 : charLtB a b = true := charLtB_true a b hab
      simp [ltChars, hba, hab2]
    · by_cases hba : b.toNat < a.toNat
      · simp [ltChars, charLtB_true b a hba, charLtB_false a b hab] at h
      · have he : a = b := char_eq_of_toNat a b (by omega)
        subst he
        have hf : charLtB a a = false := charLtB_false a a (by omega)
        simp [ltChars, hf] at h
        simp [ltChars, hf, ltChars_asymm as bs h]

theorem ltChars_trans : ∀ l1 l2 l3 : List Char,
    ltChars l1 l2 = true → ltChars l2 l3 = true → ltChars l1 l3 = true
  | l1, [], _ => by
    intro h1 _
    cases l1 <;> simp [ltChars] at h1
  | [], _ :: _, [] => by simp [ltChars]
  | [], _ :: _, _ :: _ => by simp [ltChars]
  | _ :: _, _ :: _, [] => by simp [ltChars]
  | a :: as, b :: bs, c :: cs => by
    intro h1 h2
    by_cases hab : a.toNat < b.toNat
    · by_cases hbc : b.toNat < c.toNat
      · simp [ltChars, charLtB_true a c (by omega)]
      · by_cases hcb : c.toNat < b.toNat
        · simp [ltChars, charLtB_false b c hbc, charLtB_true c b hcb] at h2
        · have he : b = c := char_eq_of_toNat b c (by omega)
          subst he
          simp [ltChars, charLtB_true a b hab]
    · by_cases hba : b.toNat < a.toNat
      · simp [ltChars, charLtB_true b a hba, charLtB_false a b hab] at h1
      · have he : a = b := char_eq_of_toNat a b (by omega)
        subst he
        have hf : charLtB a a = false := charLtB_false a a (by omega)
        simp [ltChars, hf] at h1
        by_cases hac : a.toNat < c.toNat
        · simp [ltChars, charLtB_true a c hac]
        · by_cases hca : c.toNat < a.toNat
          · simp [ltChars, charLtB_false a c hac, charLtB_true c a hca] at h2
          · have he2 : a = c := char_eq_of_toNat a c (by omega)
            subst he2
            simp [ltChars, hf] at h2
            simp [ltChars, hf, ltChars_trans as bs cs h1 h2]

theorem ltChars_eq_of_not : ∀ l1 l2 : List Char,
    ltChars l1 l2 = false → ltChars l2 l1 = false → l1 = l2
  | [], [] => by intro _ _; rfl
  | [], _ :: _ => by simp [ltChars]
  | _ :: _, [] => by simp [ltChars]
  | a :: as, b :: bs => by
    intro h1 h2
    by_cases hab : a.toNat < b.toNat
    · simp [ltChars, charLtB_true a b hab] at h1
    · by_cases hba : b.toNat < a.toNat
      · simp [ltChars, charLtB_true b a hba] at h2
      · have he : a = b := char_eq_of_toNat a b (by omega)
        subst he
        have hf : charLtB a a = false := charLtB_false a a (by omega)
        simp [ltChars, hf] at h1 h2
        rw [ltChars_eq_of_not as bs h1 h2]

theorem ltChars_ge_trans (l1 l2 l3 : List Char)
    (h1 : ltChars l1 l2 = false) (h2 : ltChars l2 l3 = false) : ltChars l1 l3 = false := by
  cases hc : ltChars l1 l3 with
  | false => rfl
  | true =>
    cases hd : ltChars l3 l2 with
    | true =>
      have hx := ltChars_trans l1 l3 l2 hc hd
      rw [hx] at h1
      exact absurd h1 (by decide)
    | false =>
      have he : l2 = l3 := ltChars_eq_of_not l2 l3 h2 hd
      subst he
      rw [hc] at h1
      exact absurd h1 (by decide)

theorem strLt_irrefl (a : String) : strLt a a = false := ltChars_irrefl a.data

theorem strLt_asymm (a b : String) (h : strLt a b = true) : strLt b a = false :=
  ltChars_asymm a.data b.data h

theorem strLt_trans (a b c : String) (h1 : strLt a b = true) (h2 : strLt b c = true) :
    strLt a c = true :=
  ltChars_trans a.data b.data c.data h1 h2

theorem strLt_ge_trans (a b c : String) (h1 : strLt a b = false) (h2 : strLt b c = false) :
    strLt a c = false :=
  ltChars_ge_trans a.data b.data c.data h1 h2

theorem strLt_eq_of_not (a b : String) (h1 : strLt a b = false) (h2 : strLt b a = false) :
    a = b := by
  cases a with
  | mk da =>
    cases b with
    | mk db => rw [ltChars_eq_of_not da db h1 h2]

theorem strLt_ne (a b : String) (h : strLt a b = true) : a ≠ b := by
  intro he
  subst he
  rw [strLt_irrefl a] at h
  cases h

/-! ## Association list and fold helper lemmas -/

theorem alookup_append_left (l1 l2 : List (String × α)) (k : String) (x : α)
    (h : alookup l1 k = some x) : alookup (l1 ++ l2) k = some x := by
  induction l1 with
  | nil => simp [alookup] at h
  | cons p rest ih =>
    by_cases hp : p.1 = k
    · simp [alookup, hp] at h ⊢
      exact h
    · simp [alookup, hp] at h ⊢
      exact ih h

theorem alookup_append_right (l1 l2 : List (String × α)) (k : String)
    (h : ∀ kv ∈ l1, kv.1 ≠ k) : alookup (l1 ++ l2) k = alookup l2 k := by
  induction l1 with
  | nil => simp
  | cons p rest ih =>
    have hp : p.1 ≠ k := h p (by simp)
    simp only [List.cons_append, alookup, hp, if_neg hp]
    exact ih (fun kv hkv => h kv (by simp [hkv]))

theorem alookup_eq_none (l : List (String × α)) (k : String)
    (h : ∀ kv ∈ l, kv.1 ≠ k) : alookup l k = none := by
  induction l with
  | nil => rfl
  | cons p rest ih =>
    have hp : p.1 ≠ k := h p (by simp)
    simp only [alookup, if_neg hp]
    exact ih (fun kv hkv => h kv (by simp [hkv]))

theorem foldSteps_shape (step : ReadUnit → String → Except String ReadUnit)
    (hstep : ∀ ru f ru2, step ru f = Except.ok ru2 →
      ∃ t, ru2 = ru ++ t ∧ ∀ kv ∈ t, kv.1 = f) :
    ∀ l ru0 ru, foldSteps step ru0 l = Except.ok ru →
      ∃ t, ru = ru0 ++ t ∧ ∀ kv ∈ t, kv.1 ∈ l := by
  intro l
  induction l with
  | nil =>
    intro ru0 ru h
    simp only [foldSteps] at h
    cases h
    exact ⟨[], by simp, by simp⟩
  | cons f fs ih =>
    intro ru0 ru h
    simp only [foldSteps] at h
    cases hs : step ru0 f with
    | error e => rw [hs] at h; cases h
    | ok ru1 =>
      rw [hs] at h
      obtain ⟨t1, ht1, ht1k⟩ := hstep ru0 f ru1 hs
      obtain ⟨t2, ht2, ht2k⟩ := ih ru1 ru h
      refine ⟨t1 ++ t2, ?_, ?_⟩
      · rw [ht2, ht1, List.append_assoc]
      · intro kv hkv
        rcases List.mem_append.mp hkv with h1 | h2
        · exact (ht1k kv h1) ▸ List.mem_cons_self f fs
        · exact List.mem_cons_of_mem f (ht2k kv h2)

theorem mandStep_shape (header vals : List String) :
    ∀ ru f ru2, mandStep header vals ru f = Except.ok ru2 →
      ∃ t, ru2 = ru ++ t ∧ ∀ kv ∈ t, kv.1 = f := by
  intro ru f ru2 h
  unfold mandStep at h
  split at h
  · cases h
  · rename_i v hv
    split at h
    · cases h
      exact ⟨[(f, pyStrip (v.getD ""))], rfl, by simp⟩
    · cases h

theorem recStep_shape (header vals : List String) :
    ∀ ru f ru2, recStep header vals ru f = Except.ok ru2 →
      ∃ t, ru2 = ru ++ t ∧ ∀ kv ∈ t, kv.1 = f := by
  intro ru f ru2 h
  unfold recStep at h
  split at h
  · cases h
  · rename_i v hv
    split at h
    · cases h
      exact ⟨[(f, pyStrip (v.getD ""))], rfl, by simp⟩
    · cases h
      exact ⟨[], by simp, by simp⟩

theorem recFold_lookup (header vals : List String) :
    ∀ l ru0 ru f s, foldSteps (recStep header vals) ru0 l = Except.ok ru →
      f ∈ l → rowGet header vals f = some (some s) → s ≠ "" →
      (∀ kv ∈ ru0, kv.1 ≠ f) → alookup ru f = some (pyStrip s) := by
  intro l
  induction l with
  | nil =>
    intro ru0 ru f s _ hf
    simp at hf
  | cons g fs ih =>
    intro ru0 ru f s h hf hrow hs h0
    simp only [foldSteps] at h
    cases hg : recStep header vals ru0 g with
    | error e => rw [hg] at h; cases h
    | ok ru1 =>
      rw [hg] at h
      by_cases hfg : f = g
      · subst hfg
        unfold recStep at hg
        rw [hrow] at hg
        simp [truthy, hs] at hg
        have hl1 : alookup ru1 f = some (pyStrip s) := by
          rw [← hg, alookup_append_right ru0 _ f h0]
          simp [alookup]
        obtain ⟨t2, ht2, _⟩ :=
          foldSteps_shape (recStep header vals) (recStep_shape header vals) fs ru1 ru h
        rw [ht2]
        exact alookup_append_left ru1 t2 f (pyStrip s) hl1
      · have hf2 : f ∈ fs := by
          rcases List.mem_cons.mp hf with h1 | h2
          · exact absurd h1 hfg
          · exact h2
        obtain ⟨t1, ht1, ht1k⟩ := recStep_shape header vals ru0 g ru1 hg
        refine ih ru1 ru f s h hf2 hrow hs ?_
        intro kv hkv
        rw [ht1] at hkv
        rcases List.mem_append.mp hkv with h1 | h2
        · exact h0 kv h1
        · rw [ht1k kv h2]
          exact fun he => hfg he.symm

theorem recFold_no_key (header vals : List String) :
    ∀ l ru0 ru f v, foldSteps (recStep header vals) ru0 l = Except.ok ru →
      rowGet header vals f = some v → truthy v = false →
      (∀ kv ∈ ru0, kv.1 ≠ f) → ∀ kv ∈ ru, kv.1 ≠ f := by
  intro l
  induction l with
  | nil =>
    intro ru0 ru f v h _ _ h0
    simp only [foldSteps] at h
    cases h
    exact h0
  | cons g fs ih =>
    intro ru0 ru f v h hrow ht h0
    simp only [foldSteps] at h
    cases hg : recStep header vals ru0 g with
    | error e => rw [hg] at h; cases h
    | ok ru1 =>
      rw [hg] at h
      refine ih ru1 ru f v h hrow ht ?_
      by_cases hfg : f = g
      · subst hfg
        unfold recStep at hg
        rw [hrow] at hg
        simp [ht] at hg
        rw [← hg]
        exact h0
      · obtain ⟨t1, ht1, ht1k⟩ := recStep_shape header vals ru0 g ru1 hg
        intro kv hkv
        rw [ht1] at hkv
        rcases List.mem_append.mp hkv with h1 | h2
        · exact h0 kv h1
        · rw [ht1k kv h2]
          exact fun he => hfg he.symm

theorem recFold_missing (header vals : List String) :
    ∀ l ru0, (∃ f, f ∈ l ∧ rowGet header vals f = none) →
      ∃ f, f ∈ l ∧ rowGet header vals f = none ∧
        foldSteps (recStep header vals) ru0 l = Except.error ("KeyError: " ++ f) := by
  intro l
  induction l with
  | nil =>
    intro ru0 h
    obtain ⟨f, hf, _⟩ := h
    simp at hf
  | cons g fs ih =>
    intro ru0 h
    cases hg : rowGet header vals g with
    | none =>
      refine ⟨g, List.mem_cons_self g fs, hg, ?_⟩
      have hstep : recStep header vals ru0 g = Except.error ("KeyError: " ++ g) := by
        unfold recStep
        rw [hg]
      simp only [foldSteps]
      rw [hstep]
    | some w =>
      obtain ⟨f, hf, hfn⟩ := h
      have hf2 : f ∈ fs := by
        rcases List.mem_cons.mp hf with h1 | h2
        · subst h1; rw [hg] at hfn; cases hfn
        · exact h2
      have hstep : ∃ ru1, recStep header vals ru0 g = Except.ok ru1 := by
        unfold recStep
        rw [hg]
        cases htw : truthy w
        · exact ⟨ru0, by simp [htw]⟩
        · exact ⟨ru0 ++ [(g, pyStrip (w.getD ""))], by simp [htw]⟩
      obtain ⟨ru1, hru1⟩ := hstep
      obtain ⟨f2, hf2m, hf2n, hf2e⟩ := ih ru1 ⟨f, hf2, hfn⟩
      refine ⟨f2, List.mem_cons_of_mem g hf2m, hf2n, ?_⟩
      simp only [foldSteps]
      rw [hru1]
      exact hf2e

theorem auxFold_shape (header vals : List String) :
    ∀ hdr ru0, ∃ t, List.foldl (auxStep header vals) ru0 hdr = ru0 ++ t ∧
      ∀ kv ∈ t, ¬ kv.1 ∈ MANDATORY_FIELDS ∧ ¬ kv.1 ∈ RECOMMENDED_FIELDS := by
  intro hdr
  induction hdr with
  | nil =>
    intro ru0
    exact ⟨[], by simp, by simp⟩
  | cons f hs ih =>
    intro ru0
    simp only [List.foldl_cons]
    by_cases hmem : f ∈ MANDATORY_FIELDS ∨ f ∈ RECOMMENDED_FIELDS
    · rw [show auxStep header vals ru0 f = ru0 from by simp [auxStep, hmem]]
      exact ih ru0
    · rw [show auxStep header vals ru0 f
          = ru0 ++ [(f, ((rowGet header vals f).getD (some "")).getD "")] from by
        simp [auxStep, hmem]]
      obtain ⟨t, ht, htk⟩ := ih (ru0 ++ [(f, ((rowGet header vals f).getD (some "")).getD "")])
      refine ⟨[(f, ((rowGet header vals f).getD (some "")).getD "")] ++ t, ?_, ?_⟩
      · rw [ht, List.append_assoc]
      · intro kv hkv
        rcases List.mem_append.mp hkv with h1 | h2
        · simp at h1
          rw [h1]
          push_neg at hmem
          exact ⟨hmem.1, hmem.2⟩
        · exact htk kv h2

/-! ## Facts about the digest and the key derivation -/

theorem leBytes_length (k n : Nat) : (leBytes k n).length = k := by
  simp [leBytes]

theorem md5DigestBytes_length (ms : List Nat) : (md5DigestBytes ms).length = 16 := by
  simp [md5DigestBytes, leBytes_length]

theorem hexChar_mem (n : Nat) : hexChar n ∈ hexDigits := by
  have h : n % 16 < hexDigits.length := by
    have h2 : n % 16 < 16 := Nat.mod_lt n (by norm_num)
    have hlen : hexDigits.length = 16 := rfl
    rw [hlen]
    exact h2
  rw [hexChar, List.getD_eq_getElem hexDigits '0' h]
  exact List.getElem_mem h

theorem hexPairFold_length (l : List Nat) :
    (l.foldr (fun b acc => hexChar (b / 16) :: hexChar (b % 16) :: acc) ([] : List Char)).length
      = 2 * l.length := by
  induction l with
  | nil => rfl
  | cons b bs ih =>
    simp only [List.foldr_cons, List.length_cons, ih, List.length_cons]
    omega

theorem hexPairFold_mem (l : List Nat) (c : Char)
    (hc : c ∈ l.foldr (fun b acc => hexChar (b / 16) :: hexChar (b % 16) :: acc) ([] : List Char)) :
    c ∈ hexDigits := by
  induction l with
  | nil => simp at hc
  | cons b bs ih =>
    simp only [List.foldr_cons, List.mem_cons] at hc
    rcases hc with h1 | h2 | h3
    · rw [h1]; exact hexChar_mem _
    · rw [h2]; exact hexChar_mem _
    · exact ih h3

theorem md5HexChars_length (ms : List Nat) : (md5HexChars ms).length = 32 := by
  rw [md5HexChars, hexPairFold_length, md5DigestBytes_length]

theorem md5HexChars_mem (ms : List Nat) (c : Char) (hc : c ∈ md5HexChars ms) :
    c ∈ hexDigits :=
  hexPairFold_mem _ c hc

theorem key_foldl_eq (ru : ReadUnit) :
    ru.foldl (fun acc kv => acc ++ keyFieldBytes kv) [] = keyInput ru := by
  suffices h : ∀ (l : ReadUnit) (acc : List Nat),
      l.foldl (fun acc kv => acc ++ keyFieldBytes kv) acc
        = acc ++ (l.map keyFieldBytes).flatten by
    simpa [keyInput] using h ru []
  intro l
  induction l with
  | nil => intro acc; simp
  | cons kv rest ih =>
    intro acc
    simp [List.foldl_cons, ih]

theorem key_for_readunit_eq (ru : ReadUnit) :
    key_for_readunit ru = String.mk ((md5HexChars (keyInput ru)).take 8) := by
  rw [key_for_readunit, key_foldl_eq]

theorem key_for_readunit_length (ru : ReadUnit) : (key_for_readunit ru).length = 8 := by
  rw [key_for_readunit_eq]
  show ((md5HexChars (keyInput ru)).take 8).length = 8
  rw [List.length_take, md5HexChars_length]
  omega

theorem key_for_readunit_hex (ru : ReadUnit) :
    ((key_for_readunit ru).data.all fun c => decide (c ∈ hexDigits)) = true := by
  rw [List.all_eq_true]
  intro c hc
  rw [key_for_readunit_eq] at hc
  have hc2 : c ∈ md5HexChars (keyInput ru) := List.take_subset 8 _ hc
  exact decide_eq_true (md5HexChars_mem _ c hc2)

theorem sameBasenameFields_bytes (kv1 kv2 : String × String)
    (h : sameBasenameFields kv1 kv2 = true) : keyFieldBytes kv1 = keyFieldBytes kv2 := by
  rw [sameBasenameFields, Bool.and_eq_true] at h
  obtain ⟨hk0, hv⟩ := h
  have hk : kv1.1 = kv2.1 := by simpa using hk0
  simp only [keyFieldBytes, ← hk]
  by_cases hm : kv1.1 ∈ file_keys
  · rw [if_pos hm] at hv
    have hbn : basename kv1.2 = basename kv2.2 := by simpa using hv
    rw [if_pos hm, if_pos hm, hbn]
  · rw [if_neg hm] at hv
    have hveq : kv1.2 = kv2.2 := by simpa using hv
    rw [if_neg hm, if_neg hm, hveq]

theorem sameValuePattern_bytes (kv1 kv2 : String × String)
    (h : sameValuePattern kv1 kv2 = true) : keyFieldBytes kv1 = keyFieldBytes kv2 := by
  rw [sameValuePattern, Bool.and_eq_true] at h
  obtain ⟨hv0, hm0⟩ := h
  have hv : kv1.2 = kv2.2 := by simpa using hv0
  have hmb : decide (kv1.1 ∈ file_keys) = decide (kv2.1 ∈ file_keys) := by
    simpa using hm0
  have hm : (kv1.1 ∈ file_keys) ↔ (kv2.1 ∈ file_keys) := by
    constructor
    · intro hx
      have h1 : decide (kv1.1 ∈ file_keys) = true := decide_eq_true hx
      rw [hmb] at h1
      exact of_decide_eq_true h1
    · intro hx
      have h1 : decide (kv2.1 ∈ file_keys) = true := decide_eq_true hx
      rw [← hmb] at h1
      exact of_decide_eq_true h1
  simp only [keyFieldBytes]
  by_cases hx : kv1.1 ∈ file_keys
  · rw [if_pos hx, if_pos (hm.mp hx), hv]
  · rw [if_neg hx, if_neg (fun hc => hx (hm.mpr hc)), hv]

theorem pairedBy_map (R : (String × String) → (String × String) → Bool)
    (hR : ∀ kv1 kv2, R kv1 kv2 = true → keyFieldBytes kv1 = keyFieldBytes kv2) :
    ∀ ru1 ru2 : ReadUnit, pairedBy R ru1 ru2 = true →
      ru1.map keyFieldBytes = ru2.map keyFieldBytes := by
  intro ru1
  induction ru1 with
  | nil =>
    intro ru2 h
    cases ru2 with
    | nil => rfl
    | cons kv2 r2 => simp [pairedBy] at h
  | cons kv1 r1 ih =>
    intro ru2 h
    cases ru2 with
    | nil => simp [pairedBy] at h
    | cons kv2 r2 =>
      simp only [pairedBy, Bool.and_eq_true] at h
      obtain ⟨h1, h2⟩ := h
      simp only [List.map_cons, hR kv1 kv2 h1, ih r2 h2]

theorem key_eq_of_map_eq (ru1 ru2 : ReadUnit)
    (h : ru1.map keyFieldBytes = ru2.map keyFieldBytes) :
    key_for_readunit ru1 = key_for_readunit ru2 := by
  rw [key_for_readunit_eq, key_for_readunit_eq]
  simp only [keyInput]
  rw [h]

/-! ## Sorting and grouping lemmas -/

theorem strLt_of_ge_ne (a b : String) (h1 : strLt a b = false) (h2 : a ≠ b) :
    strLt b a = true := by
  cases hx : strLt b a with
  | true => rfl
  | false => exact absurd (strLt_eq_of_not b a hx h1) (fun he => h2 he.symm)

theorem mem_insertSortedBy (key : α → String) (a x : α) :
    ∀ l : List α, x ∈ insertSortedBy key a l ↔ x = a ∨ x ∈ l := by
  intro l
  induction l with
  | nil => simp [insertSortedBy]
  | cons b rest ih =>
    rw [insertSortedBy]
    by_cases hb : strLt (key b) (key a) = true
    · rw [if_pos hb]
      simp only [List.mem_cons, ih]
      tauto
    · rw [if_neg hb]
      simp [List.mem_cons]

theorem pairwise_insertSortedBy (key : α → String) (a : α) (l : List α)
    (h : l.Pairwise fun x y => strLt (key y) (key x) = false) :
    (insertSortedBy key a l).Pairwise fun x y => strLt (key y) (key x) = false := by
  induction l with
  | nil => simp [insertSortedBy]
  | cons b rest ih =>
    rw [List.pairwise_cons] at h
    obtain ⟨hb, hrest⟩ := h
    rw [insertSortedBy]
    by_cases hba : strLt (key b) (key a) = true
    · rw [if_pos hba]
      rw [List.pairwise_cons]
      refine ⟨?_, ih hrest⟩
      intro y hy
      rcases (mem_insertSortedBy key a y rest).mp hy with h1 | h2
      · rw [h1]
        exact strLt_asymm _ _ hba
      · exact hb y h2
    · rw [if_neg hba]
      have hab : strLt (key b) (key a) = false := by
        cases hx : strLt (key b) (key a) with
        | false => rfl
        | true => exact absurd hx hba
      rw [List.pairwise_cons]
      refine ⟨?_, List.pairwise_cons.mpr ⟨hb, hrest⟩⟩
      intro y hy
      rcases List.mem_cons.mp hy with h1 | h2
      · rw [h1]; exact hab
      · exact strLt_ge_trans _ _ _ (hb y h2) hab

theorem pairwise_sortBy (key : α → String) (l : List α) :
    (sortBy key l).Pairwise fun x y => strLt (key y) (key x) = false := by
  rw [sortBy]
  induction l with
  | nil => simp
  | cons a rest ih =>
    rw [List.foldr_cons]
    exact pairwise_insertSortedBy key a _ ih

theorem runsBy_sub (key : α → String) :
    ∀ l k g, (k, g) ∈ runsBy key l → g ≠ [] ∧ ∀ x ∈ g, key x = k ∧ x ∈ l := by
  intro l
  induction l with
  | nil =>
    intro k g h
    simp [runsBy] at h
  | cons a rest ih =>
    intro k g h
    rw [runsBy] at h
    cases hr : runsBy key rest with
    | nil =>
      rw [hr] at h
      simp at h
      obtain ⟨hk, hg⟩ := h
      subst hk
      subst hg
      refine ⟨by simp, ?_⟩
      intro x hx
      simp at hx
      subst hx
      exact ⟨rfl, by simp⟩
    | cons kg rs =>
      rw [hr] at h
      cases kg with
      | mk k2 g2 =>
        have h2 : (k, g) ∈
            (if key a = k2 then (k2, a :: g2) :: rs
             else (key a, [a]) :: (k2, g2) :: rs) := h
        clear h
        by_cases hak : key a = k2
        · rw [if_pos hak] at h2
          rcases List.mem_cons.mp h2 with h1 | h3
          · have hk : k2 = k := (congrArg Prod.fst h1).symm
            have hg : a :: g2 = g := (congrArg Prod.snd h1).symm
            subst hk
            subst hg
            have hsub := ih k2 g2 (by rw [hr]; exact List.mem_cons_self _ _)
            refine ⟨by simp, ?_⟩
            intro x hx
            rcases List.mem_cons.mp hx with hx1 | hx2
            · subst hx1
              exact ⟨hak, List.mem_cons_self _ _⟩
            · obtain ⟨hxa, hxb⟩ := hsub.2 x hx2
              exact ⟨hxa, List.mem_cons_of_mem _ hxb⟩
          · have hsub := ih k g (by rw [hr]; exact List.mem_cons_of_mem _ h3)
            refine ⟨hsub.1, ?_⟩
            intro x hx
            obtain ⟨hxa, hxb⟩ := hsub.2 x hx
            exact ⟨hxa, List.mem_cons_of_mem _ hxb⟩
        · rw [if_neg hak] at h2
          rcases List.mem_cons.mp h2 with h1 | h3
          · have hk : key a = k := (congrArg Prod.fst h1).symm
            have hg : [a] = g := (congrArg Prod.snd h1).symm
            subst hg
            refine ⟨by simp, ?_⟩
            intro x hx
            simp at hx
            subst hx
            exact ⟨hk, by simp⟩
          · have hsub := ih k g (by rw [hr]; exact h3)
            refine ⟨hsub.1, ?_⟩
            intro x hx
            obtain ⟨hxa, hxb⟩ := hsub.2 x hx
            exact ⟨hxa, List.mem_cons_of_mem _ hxb⟩

theorem runsBy_keys_sorted (key : α → String) :
    ∀ l : List α, (l.Pairwise fun x y => strLt (key y) (key x) = false) →
      ((runsBy key l).map Prod.fst).Pairwise fun x y => strLt x y = true := by
  intro l
  induction l with
  | nil =>
    intro _
    simp [runsBy]
  | cons a rest ih =>
    intro h
    rw [List.pairwise_cons] at h
    obtain ⟨ha, hrest⟩ := h
    rw [runsBy]
    cases hr : runsBy key rest with
    | nil => simp
    | cons kg rs =>
      cases kg with
      | mk k2 g2 =>
        have hih := ih hrest
        rw [hr] at hih
        have hsub := runsBy_sub key rest k2 g2 (by rw [hr]; exact List.mem_cons_self _ _)
        obtain ⟨x0, hx0⟩ := List.exists_mem_of_ne_nil g2 hsub.1
        obtain ⟨hx0k, hx0m⟩ := hsub.2 x0 hx0
        have hak2 : strLt k2 (key a) = false := by
          rw [← hx0k]
          exact ha x0 hx0m
        show List.Pairwise (fun x y => strLt x y = true)
          (List.map Prod.fst
            (if key a = k2 then (k2, a :: g2) :: rs
             else (key a, [a]) :: (k2, g2) :: rs))
        by_cases hak : key a = k2
        · rw [if_pos hak]
          simpa using hih
        · rw [if_neg hak]
          rw [List.map_cons, List.pairwise_cons]
          rw [List.map_cons] at hih
          have hcons := List.pairwise_cons.mp hih
          refine ⟨?_, hih⟩
          intro y hy
          rcases List.mem_cons.mp hy with h1 | h2
          · rw [h1]
            exact strLt_of_ge_ne k2 (key a) hak2 (fun he => hak he.symm)
          · exact strLt_trans (key a) k2 y
              (strLt_of_ge_ne k2 (key a) hak2 (fun he => hak he.symm)) (hcons.1 y h2)

theorem dictInsert_fresh (m : List (String × α)) (k : String) (v : α)
    (h : ∀ p ∈ m, p.1 ≠ k) : dictInsert m k v = m ++ [(k, v)] := by
  induction m with
  | nil => rfl
  | cons p rest ih =>
    have hp : p.1 ≠ k := h p (by simp)
    rw [dictInsert, if_neg hp]
    rw [List.cons_append]
    rw [ih (fun q hq => h q (by simp [hq]))]

theorem foldl_dictInsert_fresh :
    ∀ (rs : List (String × List ReadUnit)) (m : List (String × SampleVal)),
      (∀ p ∈ rs, ∀ q ∈ m, q.1 ≠ p.1) →
      ((rs.map Prod.fst).Pairwise fun x y => x ≠ y) →
      rs.foldl (fun m kg => dictInsert m kg.1 [("readunits", buildReadunitsMap kg.2)]) m
        = m ++ rs.map fun kg => (kg.1, [("readunits", buildReadunitsMap kg.2)]) := by
  intro rs
  induction rs with
  | nil =>
    intro m _ _
    simp
  | cons kg rest ih =>
    intro m hdisj hnd
    rw [List.map_cons, List.pairwise_cons] at hnd
    simp only [List.foldl_cons]
    rw [dictInsert_fresh m kg.1 _ (fun q hq => hdisj kg (by simp) q hq)]
    rw [ih (m ++ [(kg.1, [("readunits", buildReadunitsMap kg.2)])]) ?_ hnd.2]
    · simp
    · intro p hp q hq
      rcases List.mem_append.mp hq with h1 | h2
      · exact hdisj p (by simp [hp]) q h1
      · simp at h2
        rw [h2]
        exact hnd.1 p.1 (List.mem_map_of_mem Prod.fst hp)

theorem buildSamples_eq (rus : List ReadUnit) :
    buildSamples rus = (runsBy sampleId (sortBy sampleId rus)).map
      fun kg => (kg.1, [("readunits", buildReadunitsMap kg.2)]) := by
  rw [buildSamples]
  have hkeys := runsBy_keys_sorted sampleId (sortBy sampleId rus) (pairwise_sortBy _ _)
  rw [foldl_dictInsert_fresh _ [] (by simp) (hkeys.imp (fun h => strLt_ne _ _ h))]
  simp

theorem alookup_dictInsert (m : List (String × α)) (k k2 : String) (v : α) :
    alookup (dictInsert m k v) k2 = if k = k2 then some v else alookup m k2 := by
  induction m with
  | nil => rfl
  | cons p rest ih =>
    by_cases hp : p.1 = k
    · rw [dictInsert, if_pos hp]
      by_cases hk2 : k = k2
      · rw [alookup, if_pos hk2, if_pos hk2]
      · rw [alookup, if_neg hk2, if_neg hk2, alookup,
          if_neg (fun hc : p.1 = k2 => hk2 (hp ▸ hc))]
    · rw [dictInsert, if_neg hp]
      by_cases hp2 : p.1 = k2
      · have hk2 : ¬ k = k2 := fun hc => hp (hc ▸ hp2)
        rw [alookup, if_pos hp2, if_neg hk2, alookup, if_pos hp2]
      · rw [alookup, if_neg hp2, ih, alookup, if_neg hp2]

theorem find?_orElse_append (p : α → Bool) :
    ∀ l1 l2 : List α, (l1 ++ l2).find? p
      = ((l1.find? p).orElse fun _ => l2.find? p) := by
  intro l1 l2
  induction l1 with
  | nil => simp
  | cons a l1 ih =>
    cases hpa : p a with
    | true => simp [List.find?_cons, hpa]
    | false => simp [List.find?_cons, hpa, ih]

theorem buildReadunitsMap_lookup :
    ∀ (g : List ReadUnit) (m : List (String × ReadUnit)) (k : String),
      alookup (g.foldl (fun m ru => dictInsert m (key_for_readunit ru) ru) m) k
        = ((g.reverse.find? fun ru => key_for_readunit ru == k).orElse
            fun _ => alookup m k) := by
  intro g
  induction g with
  | nil =>
    intro m k
    simp
  | cons ru rest ih =>
    intro m k
    simp only [List.foldl_cons, List.reverse_cons]
    rw [ih, find?_orElse_append]
    cases hfind : rest.reverse.find? fun ru => key_for_readunit ru == k with
    | some r => simp [hfind]
    | none =>
      cases hk : (key_for_readunit ru == k) with
      | true =>
        have hkeq : key_for_readunit ru = k := by simpa using hk
        simp [hfind, List.find?_cons, hk, alookup_dictInsert, hkeq]
      | false =>
        have hkne : key_for_readunit ru ≠ k := by simpa using hk
        simp [hfind, List.find?_cons, hk, alookup_dictInsert, hkne]

/-- Row lookup fails exactly on the fields absent from the header. -/
theorem rowGet_none (f : String) : ∀ (header vals : List String),
    ¬ f ∈ header → rowGet header vals f = none := by
  intro header
  induction header with
  | nil => intro vals _; rfl
  | cons hh hs ih =>
    intro vals hmem
    rw [rowGet, if_neg (fun he => hmem (by rw [← he]; exact List.mem_cons_self _ _))]
    exact ih vals.tail (fun hc => hmem (List.mem_cons_of_mem _ hc))

/-- Evaluation of the mandatory-field step on a falsy cell. -/
theorem mandStep_falsy (header vals : List String) (ru0 : ReadUnit) (f : String)
    (v : Option String) (h : rowGet header vals f = some v) (ht : truthy v = false) :
    mandStep header vals ru0 f = Except.error ("Mandatory field " ++ f ++ " is empty") := by
  unfold mandStep
  rw [h]
  simp [ht]

/-- Evaluation of the mandatory-field step on a truthy cell. -/
theorem mandStep_truthy (header vals : List String) (ru0 : ReadUnit) (f : String)
    (v : Option String) (h : rowGet header vals f = some v) (ht : truthy v = true) :
    mandStep header vals ru0 f = Except.ok (ru0 ++ [(f, pyStrip (v.getD ""))]) := by
  unfold mandStep
  rw [h]
  simp [ht]

/-- A successful row decomposes into the results of the three field
loops: mandatory, recommended (extending the mandatory record), and the
auxiliary columns appended at the end. -/
theorem processRow_ok (header vals : List String) (ru : ReadUnit)
    (h : processRow header vals = Except.ok ru) :
    ∃ ru1 ru2 t3, foldSteps (mandStep header vals) [] MANDATORY_FIELDS = Except.ok ru1
      ∧ foldSteps (recStep header vals) ru1 RECOMMENDED_FIELDS = Except.ok ru2
      ∧ ru = ru2 ++ t3
      ∧ (∀ kv ∈ t3, ¬ kv.1 ∈ MANDATORY_FIELDS ∧ ¬ kv.1 ∈ RECOMMENDED_FIELDS) := by
  unfold processRow at h
  cases hm : foldSteps (mandStep header vals) [] MANDATORY_FIELDS with
  | error e => rw [hm] at h; simp at h
  | ok ru1 =>
    rw [hm] at h
    simp only at h
    cases hr : foldSteps (recStep header vals) ru1 RECOMMENDED_FIELDS with
    | error e => rw [hr] at h; simp at h
    | ok ru2 =>
      rw [hr] at h
      simp only [Except.ok.injEq] at h
      obtain ⟨t3, ht3, ht3k⟩ := auxFold_shape header vals header ru2
      exact ⟨ru1, ru2, t3, rfl, hr, by rw [← h, ht3], ht3k⟩

/-- A successful mandatory loop pins down both cells: present, truthy,
and stored stripped in schema order. -/
theorem mandFold_ok (header vals : List String) (ru1 : ReadUnit)
    (h : foldSteps (mandStep header vals) [] MANDATORY_FIELDS = Except.ok ru1) :
    ∃ s1 s2, rowGet header vals "sample_id" = some (some s1) ∧ s1 ≠ ""
      ∧ rowGet header vals "fq1" = some (some s2) ∧ s2 ≠ ""
      ∧ ru1 = [("sample_id", pyStrip s1), ("fq1", pyStrip s2)] := by
  rw [show MANDATORY_FIELDS = ["sample_id", "fq1"] from rfl] at h
  simp only [foldSteps] at h
  cases h1 : mandStep header vals [] "sample_id" with
  | error e => rw [h1] at h; simp at h
  | ok ruA =>
    rw [h1] at h
    simp only at h
    cases h2 : mandStep header vals ruA "fq1" with
    | error e => rw [h2] at h; simp at h
    | ok ruB =>
      rw [h2] at h
      simp only [Except.ok.injEq] at h
      unfold mandStep at h1
      split at h1
      · cases h1
      · rename_i v hv1
        split at h1
        · rename_i htv1
          unfold mandStep at h2
          split at h2
          · cases h2
          · rename_i w hv2
            split at h2
            · rename_i htv2
              cases v with
              | none => simp [truthy] at htv1
              | some s1 =>
                cases w with
                | none => simp [truthy] at htv2
                | some s2 =>
                  refine ⟨s1, s2, hv1, by simpa [truthy] using htv1, hv2,
                    by simpa [truthy] using htv2, ?_⟩
                  cases h1
                  cases h2
                  rw [← h]
                  rfl
            · cases h2
        · cases h1

/-- When some recommended field is missing from the header, processing any
row fails with an error. -/
theorem processRow_error_of_missing (header vals : List String)
    (hmiss : ∃ f, f ∈ RECOMMENDED_FIELDS ∧ ¬ f ∈ header) :
    ∃ e, processRow header vals = Except.error e := by
  obtain ⟨f, hf, hfh⟩ := hmiss
  unfold processRow
  cases hm : foldSteps (mandStep header vals) [] MANDATORY_FIELDS with
  | error e => exact ⟨e, rfl⟩
  | ok ru1 =>
    obtain ⟨f2, _, _, hfe⟩ := recFold_missing header vals RECOMMENDED_FIELDS ru1
      ⟨f, hf, rowGet_none f header vals hfh⟩
    show ∃ e, (match foldSteps (recStep header vals) ru1 RECOMMENDED_FIELDS with
      | Except.error e => Except.error e
      | Except.ok ru2 => Except.ok (header.foldl (auxStep header vals) ru2)) = Except.error e
    rw [hfe]
    exact ⟨"KeyError: " ++ f2, rfl⟩

/-! ## Claim theorems -/

/-- C1: the source constructs csv.DictReader without forwarding the
caller-supplied delimiter, so rows are always split on the comma: on a
tab-separated input with the default tab delimiter the mandatory-header
check fails, whereas a reader honouring the tab delimiter parses the same
input into one read unit.  The code contradicts its own -d option. -/
theorem claim_C1_delimiter_ignored :
    parse_readunits_from_csv
      ["sample_id\tfq1\tfq2\trun_id\tflowcell_id\tlane_id\tlibrary_id",
       "S1\tx.fq\t\t\t\t\t"]
      = Except.error "Missing mandatory header/field: sample_id"
    ∧ parse_readunits_with_delim DEFAULT_DELIMITER
      ["sample_id\tfq1\tfq2\trun_id\tflowcell_id\tlane_id\tlibrary_id",
       "S1\tx.fq\t\t\t\t\t"]
      = Except.ok [[("sample_id", "S1"), ("fq1", "x.fq")]] :=
  ⟨by decide, by decide⟩

/-- C2 counterexample: two distinct rows with entirely identical field
content parse to two identical read units, yet the built document keeps
only ONE entry for them — the later overwrites the earlier under their
shared derived key — so the serialized configuration document does not
contain two independent entries as the claim states. -/
theorem claim_C2_counterexample :
    parse_readunits_from_csv
      ["sample_id,fq1,fq2,run_id,flowcell_id,lane_id,library_id",
       "S1,a.fq,,,,,", "S1,a.fq,,,,,"]
      = Except.ok [[("sample_id", "S1"), ("fq1", "a.fq")],
                   [("sample_id", "S1"), ("fq1", "a.fq")]]
    ∧ (readunitsOf (buildSamples
        [[("sample_id", "S1"), ("fq1", "a.fq")],
         [("sample_id", "S1"), ("fq1", "a.fq")]]) "S1").length = 1
    ∧ ¬ (readunitsOf (buildSamples
        [[("sample_id", "S1"), ("fq1", "a.fq")],
         [("sample_id", "S1"), ("fq1", "a.fq")]]) "S1").length = 2 :=
  ⟨by decide, by decide, by decide⟩

/-- C2 amended: two read units from distinct rows with entirely identical
field content derive the same key and collapse to a single fully-expanded
entry of their sample readunits mapping (last-write-wins), rather than
appearing twice; no shared-structure aliasing exists in the serialization:
a readunits mapping holding one value under two distinct keys renders each
entry independently and fully expanded. -/
theorem claim_C2_amended :
    (∀ (ru : ReadUnit) (sid : String), alookup ru "sample_id" = some sid →
      buildSamples [ru, ru] = [(sid, [("readunits", [(key_for_readunit ru, ru)])])])
    ∧ (∀ (k1 k2 : String) (v : ReadUnit), strLt k1 k2 = true →
      renderRUMap [(k1, v), (k2, v)]
        = renderEntryRU (k1, v) ++ (renderEntryRU (k2, v) ++ "")) := by
  constructor
  · intro ru sid h
    have hsid : sampleId ru = sid := by rw [sampleId, h]; rfl
    rw [buildSamples]
    simp [sortBy, insertSortedBy, strLt_irrefl, runsBy, buildReadunitsMap, dictInsert, hsid]
  · intro k1 k2 v h
    have hasym : strLt k2 k1 = false := strLt_asymm k1 k2 h
    rw [renderRUMap]
    simp [sortBy, insertSortedBy, hasym, renderEntriesRU]

theorem claim_C2_witness :
    (alookup [("sample_id", "S1"), ("fq1", "a.fq")] "sample_id" = some "S1"
      ∧ buildSamples [[("sample_id", "S1"), ("fq1", "a.fq")],
          [("sample_id", "S1"), ("fq1", "a.fq")]]
        = [("S1", [("readunits",
            [(key_for_readunit [("sample_id", "S1"), ("fq1", "a.fq")],
              [("sample_id", "S1"), ("fq1", "a.fq")])])])])
    ∧ (strLt "aaaa" "bbbb" = true
      ∧ renderRUMap [("aaaa", [("fq1", "x")]), ("bbbb", [("fq1", "x")])]
        = renderEntryRU ("aaaa", [("fq1", "x")])
          ++ (renderEntryRU ("bbbb", [("fq1", "x")]) ++ "")) :=
  ⟨⟨by decide, claim_C2_amended.1 _ "S1" (by decide)⟩,
   ⟨by decide, claim_C2_amended.2 "aaaa" "bbbb" _ (by decide)⟩⟩

/-- C3: in the readunits mapping built for one run of read units, every
key maps to the LAST read unit of the run deriving that key — later
entries overwrite earlier ones on collision — and the construction is
total, so no error is raised. -/
theorem claim_C3_last_write_wins (g : List ReadUnit) (k : String) :
    alookup (buildReadunitsMap g) k
      = g.reverse.find? fun ru => key_for_readunit ru == k := by
  unfold buildReadunitsMap
  rw [buildReadunitsMap_lookup g [] k]
  cases hf : g.reverse.find? fun ru => key_for_readunit ru == k <;> simp [hf, alookup]

/-- C6: the derived key equals the first 8 characters of the lowercase
hexadecimal MD5 digest (a 128-bit hash: 16 digest bytes) of the
concatenation, in field-iteration order, of the UTF-8 bytes of each field
value, with the file-path fields fq1 and fq2 first reduced to their
basename; consequently every key is exactly 8 lowercase hexadecimal
characters. -/
theorem claim_C6_key_scheme (ru : ReadUnit) :
    key_for_readunit ru = String.mk ((md5HexChars (keyInput ru)).take 8)
    ∧ (md5DigestBytes (keyInput ru)).length = 16
    ∧ (key_for_readunit ru).length = 8
    ∧ ((key_for_readunit ru).data.all fun c => decide (c ∈ hexDigits)) = true :=
  ⟨key_for_readunit_eq ru, md5DigestBytes_length _, key_for_readunit_length ru,
    key_for_readunit_hex ru⟩

/-- C7: two read units that agree fieldwise — same field names in the same
order, equal values everywhere except that the file-path fields fq1/fq2
may differ in directory prefix while sharing the basename — derive the
same key. -/
theorem claim_C7_basename_invariance (ru1 ru2 : ReadUnit)
    (h : pairedBy sameBasenameFields ru1 ru2 = true) :
    key_for_readunit ru1 = key_for_readunit ru2 :=
  key_eq_of_map_eq ru1 ru2 (pairedBy_map sameBasenameFields sameBasenameFields_bytes ru1 ru2 h)

theorem claim_C7_witness :
    pairedBy sameBasenameFields
      [("sample_id", "S1"), ("fq1", "/data/run1/a_R1.fq.gz")]
      [("sample_id", "S1"), ("fq1", "other/dir/a_R1.fq.gz")] = true
    ∧ key_for_readunit [("sample_id", "S1"), ("fq1", "/data/run1/a_R1.fq.gz")]
      = key_for_readunit [("sample_id", "S1"), ("fq1", "other/dir/a_R1.fq.gz")] :=
  ⟨by decide, claim_C7_basename_invariance _ _ (by decide)⟩

/-- C10: the key depends only on the sequence of field values (after
basename reduction for the file-path fields) and on which positions are
file-path fields, never on the field names themselves: read units with
equal values in the same order whose corresponding names agree on
membership in the file-path set derive equal keys. -/
theorem claim_C10_name_independence (ru1 ru2 : ReadUnit)
    (h : pairedBy sameValuePattern ru1 ru2 = true) :
    key_for_readunit ru1 = key_for_readunit ru2 :=
  key_eq_of_map_eq ru1 ru2 (pairedBy_map sameValuePattern sameValuePattern_bytes ru1 ru2 h)

theorem claim_C10_witness :
    pairedBy sameValuePattern
      [("some_field", "v1"), ("fq1", "/p/x.fq")]
      [("other_name", "v1"), ("fq2", "/p/x.fq")] = true
    ∧ key_for_readunit [("some_field", "v1"), ("fq1", "/p/x.fq")]
      = key_for_readunit [("other_name", "v1"), ("fq2", "/p/x.fq")] :=
  ⟨by decide, claim_C10_name_independence _ _ (by decide)⟩

/-- C8: the planner stable-sorts the read units by sample_id and
partitions the sorted sequence into contiguous runs of equal sample_id,
one sample per run: the sample keys of the document appear in strictly
increasing sample_id order, and every sample is exactly the readunits
mapping of one non-empty run, all of whose members carry that sample_id;
for sample_ids {A, A, B} the document has exactly two samples, A with two
read units and B with one. -/
theorem claim_C8_grouping :
    (∀ rus : List ReadUnit,
      (((buildSamples rus).map Prod.fst).Pairwise fun x y => strLt x y = true)
      ∧ ∀ p ∈ buildSamples rus,
          ∃ g, (p.1, g) ∈ runsBy sampleId (sortBy sampleId rus)
            ∧ p.2 = [("readunits", buildReadunitsMap g)]
            ∧ g ≠ [] ∧ ∀ ru ∈ g, sampleId ru = p.1)
    ∧ samplesSummary
        [[("sample_id", "A"), ("fq1", "a1.fq")],
         [("sample_id", "B"), ("fq1", "b.fq")],
         [("sample_id", "A"), ("fq1", "a2.fq")]]
      = [("A", 2), ("B", 1)] := by
  constructor
  · intro rus
    constructor
    · rw [buildSamples_eq, List.map_map]
      exact runsBy_keys_sorted sampleId _ (pairwise_sortBy _ _)
    · intro p hp
      rw [buildSamples_eq] at hp
      obtain ⟨kg, hkg, hkg2⟩ := List.mem_map.mp hp
      subst hkg2
      have hsub := runsBy_sub sampleId (sortBy sampleId rus) kg.1 kg.2
        (by rw [Prod.mk.eta]; exact hkg)
      refine ⟨kg.2, by rw [Prod.mk.eta]; exact hkg, rfl, hsub.1,
        fun ru hru => (hsub.2 ru hru).1⟩
  · decide

theorem claim_C8_witness :
    (("A", [("readunits", buildReadunitsMap
        [[("sample_id", "A"), ("fq1", "a1.fq")], [("sample_id", "A"), ("fq1", "a2.fq")]])])
      ∈ buildSamples
        [[("sample_id", "A"), ("fq1", "a1.fq")],
         [("sample_id", "B"), ("fq1", "b.fq")],
         [("sample_id", "A"), ("fq1", "a2.fq")]])
    ∧ ∃ g, ("A", g) ∈ runsBy sampleId (sortBy sampleId
        [[("sample_id", "A"), ("fq1", "a1.fq")],
         [("sample_id", "B"), ("fq1", "b.fq")],
         [("sample_id", "A"), ("fq1", "a2.fq")]])
      ∧ [("readunits", buildReadunitsMap
          [[("sample_id", "A"), ("fq1", "a1.fq")], [("sample_id", "A"), ("fq1", "a2.fq")]])]
        = [("readunits", buildReadunitsMap g)]
      ∧ g ≠ [] ∧ ∀ ru ∈ g, sampleId ru = "A" :=
  ⟨by decide,
    (claim_C8_grouping.1
      [[("sample_id", "A"), ("fq1", "a1.fq")],
       [("sample_id", "B"), ("fq1", "b.fq")],
       [("sample_id", "A"), ("fq1", "a2.fq")]]).2
      ("A", [("readunits", buildReadunitsMap
        [[("sample_id", "A"), ("fq1", "a1.fq")], [("sample_id", "A"), ("fq1", "a2.fq")]])])
      (by decide)⟩

/-- C4 counterexample: a whitespace-only mandatory value (fq1 holding one
space) does NOT fail as the claim requires — the assert checks raw
truthiness, a space is truthy — and the row parses into a read unit whose
fq1 is the empty string after trimming. -/
theorem claim_C4_counterexample :
    parse_readunits_from_csv
      ["sample_id,fq1,fq2,run_id,flowcell_id,lane_id,library_id", "S1, ,,,,,"]
      = Except.ok [[("sample_id", "S1"), ("fq1", "")]] := by decide

/-- C4 amended: if a mandatory field (sample_id or fq1) is absent from the
row or its RAW value is empty, parsing the row fails with an error naming
the first such field in schema order and no read unit is produced; on
success both mandatory cells were present and raw-truthy, and each is
stored under its name with the value trimmed — so a whitespace-only raw
value passes the check and is stored as the empty string. -/
theorem claim_C4_amended :
    (∀ (header vals : List String) (v : Option String),
      rowGet header vals "sample_id" = some v → truthy v = false →
      processRow header vals = Except.error "Mandatory field sample_id is empty")
    ∧ (∀ (header vals : List String) (v w : Option String),
      rowGet header vals "sample_id" = some v → truthy v = true →
      rowGet header vals "fq1" = some w → truthy w = false →
      processRow header vals = Except.error "Mandatory field fq1 is empty")
    ∧ (∀ (header vals : List String) (ru : ReadUnit),
      processRow header vals = Except.ok ru →
      ∃ s1 s2, rowGet header vals "sample_id" = some (some s1) ∧ s1 ≠ ""
        ∧ rowGet header vals "fq1" = some (some s2) ∧ s2 ≠ ""
        ∧ alookup ru "sample_id" = some (pyStrip s1)
        ∧ alookup ru "fq1" = some (pyStrip s2)) := by
  refine ⟨?_, ?_, ?_⟩
  · intro header vals v h ht
    have hfold : foldSteps (mandStep header vals) [] MANDATORY_FIELDS
        = Except.error ("Mandatory field " ++ "sample_id" ++ " is empty") := by
      rw [show MANDATORY_FIELDS = ["sample_id", "fq1"] from rfl]
      simp only [foldSteps, mandStep_falsy header vals [] "sample_id" v h ht]
    unfold processRow
    rw [hfold]
    show Except.error ("Mandatory field " ++ "sample_id" ++ " is empty")
      = Except.error "Mandatory field sample_id is empty"
    decide
  · intro header vals v w hv htv hw htw
    have hfold : foldSteps (mandStep header vals) [] MANDATORY_FIELDS
        = Except.error ("Mandatory field " ++ "fq1" ++ " is empty") := by
      rw [show MANDATORY_FIELDS = ["sample_id", "fq1"] from rfl]
      simp only [foldSteps, mandStep_truthy header vals [] "sample_id" v hv htv,
        mandStep_falsy header vals ([] ++ [("sample_id", pyStrip (v.getD ""))]) "fq1" w hw htw]
    unfold processRow
    rw [hfold]
    show Except.error ("Mandatory field " ++ "fq1" ++ " is empty")
      = Except.error "Mandatory field fq1 is empty"
    decide
  · intro header vals ru h
    obtain ⟨ru1, ru2, t3, hm, hr, hru, ht3k⟩ := processRow_ok header vals ru h
    obtain ⟨s1, s2, hg1, hs1, hg2, hs2, hru1⟩ := mandFold_ok header vals ru1 hm
    obtain ⟨t2, ht2, ht2k⟩ := foldSteps_shape (recStep header vals) (recStep_shape header vals)
      RECOMMENDED_FIELDS ru1 ru2 hr
    have hb1 : alookup ru1 "sample_id" = some (pyStrip s1) := by
      rw [hru1]
      simp [alookup]
    have hb2 : alookup ru1 "fq1" = some (pyStrip s2) := by
      rw [hru1]
      simp [alookup]
    refine ⟨s1, s2, hg1, hs1, hg2, hs2, ?_, ?_⟩
    · rw [hru, ht2]
      exact alookup_append_left _ _ _ _ (alookup_append_left _ _ _ _ hb1)
    · rw [hru, ht2]
      exact alookup_append_left _ _ _ _ (alookup_append_left _ _ _ _ hb2)

theorem claim_C4_witness :
    processRow ["sample_id", "fq1"] ["", "x"]
      = Except.error "Mandatory field sample_id is empty"
    ∧ processRow ["sample_id", "fq1"] ["S1", ""]
      = Except.error "Mandatory field fq1 is empty"
    ∧ ∃ s1 s2,
        rowGet ["sample_id", "fq1", "fq2", "run_id", "flowcell_id", "lane_id", "library_id"]
          ["S1", " x ", "", "", "", "", ""] "sample_id" = some (some s1) ∧ s1 ≠ ""
        ∧ rowGet ["sample_id", "fq1", "fq2", "run_id", "flowcell_id", "lane_id", "library_id"]
          ["S1", " x ", "", "", "", "", ""] "fq1" = some (some s2) ∧ s2 ≠ ""
        ∧ alookup [("sample_id", "S1"), ("fq1", "x")] "sample_id" = some (pyStrip s1)
        ∧ alookup [("sample_id", "S1"), ("fq1", "x")] "fq1" = some (pyStrip s2) :=
  ⟨claim_C4_amended.1 ["sample_id", "fq1"] ["", "x"] (some "") (by decide) (by decide),
   claim_C4_amended.2.1 ["sample_id", "fq1"] ["S1", ""] (some "S1") (some "")
     (by decide) (by decide) (by decide) (by decide),
   claim_C4_amended.2.2
     ["sample_id", "fq1", "fq2", "run_id", "flowcell_id", "lane_id", "library_id"]
     ["S1", " x ", "", "", "", "", ""] [("sample_id", "S1"), ("fq1", "x")] (by decide)⟩

/-- C5 counterexample: a whitespace-only recommended value (fq2 holding
one space) is raw-truthy, so the row includes fq2 — trimmed to the empty
string — although the claim requires it to be omitted whenever the value
is empty after trimming. -/
theorem claim_C5_counterexample :
    parse_readunits_from_csv
      ["sample_id,fq1,fq2,run_id,flowcell_id,lane_id,library_id", "S1,a.fq, ,,,,"]
      = Except.ok [[("sample_id", "S1"), ("fq1", "a.fq"), ("fq2", "")]] := by decide

/-- C5 amended: a recommended field is included exactly when its RAW value
is non-empty, stored trimmed (so a whitespace-only raw value is included
with the empty string as value); a raw-empty or absent cell is skipped
without error, leaving the field out of the read unit. -/
theorem claim_C5_amended :
    (∀ (header vals : List String) (ru : ReadUnit) (f s : String),
      f ∈ RECOMMENDED_FIELDS → processRow header vals = Except.ok ru →
      rowGet header vals f = some (some s) → s ≠ "" → alookup ru f = some (pyStrip s))
    ∧ (∀ (header vals : List String) (ru : ReadUnit) (f : String) (v : Option String),
      f ∈ RECOMMENDED_FIELDS → processRow header vals = Except.ok ru →
      rowGet header vals f = some v → truthy v = false → alookup ru f = none)
    ∧ (∀ (header vals : List String) (ru0 : ReadUnit) (f : String) (v : Option String),
      rowGet header vals f = some v → truthy v = false →
      recStep header vals ru0 f = Except.ok ru0) := by
  have hdisj : ∀ f ∈ RECOMMENDED_FIELDS, ¬ f ∈ MANDATORY_FIELDS := by decide
  refine ⟨?_, ?_, ?_⟩
  · intro header vals ru f s hf h hrow hs
    obtain ⟨ru1, ru2, t3, hm, hr, hru, ht3k⟩ := processRow_ok header vals ru h
    obtain ⟨t1, ht1, ht1k⟩ := foldSteps_shape (mandStep header vals) (mandStep_shape header vals)
      MANDATORY_FIELDS [] ru1 hm
    have hru1f : ∀ kv ∈ ru1, kv.1 ≠ f := by
      intro kv hkv he
      rw [ht1] at hkv
      simp only [List.nil_append] at hkv
      exact hdisj f hf (he ▸ ht1k kv hkv)
    have hl2 : alookup ru2 f = some (pyStrip s) :=
      recFold_lookup header vals RECOMMENDED_FIELDS ru1 ru2 f s hr hf hrow hs hru1f
    rw [hru]
    exact alookup_append_left _ _ _ _ hl2
  · intro header vals ru f v hf h hrow ht
    obtain ⟨ru1, ru2, t3, hm, hr, hru, ht3k⟩ := processRow_ok header vals ru h
    obtain ⟨t1, ht1, ht1k⟩ := foldSteps_shape (mandStep header vals) (mandStep_shape header vals)
      MANDATORY_FIELDS [] ru1 hm
    have hru1f : ∀ kv ∈ ru1, kv.1 ≠ f := by
      intro kv hkv he
      rw [ht1] at hkv
      simp only [List.nil_append] at hkv
      exact hdisj f hf (he ▸ ht1k kv hkv)
    have h2 : ∀ kv ∈ ru2, kv.1 ≠ f :=
      recFold_no_key header vals RECOMMENDED_FIELDS ru1 ru2 f v hr hrow ht hru1f
    rw [hru]
    apply alookup_eq_none
    intro kv hkv
    rcases List.mem_append.mp hkv with hk1 | hk2
    · exact h2 kv hk1
    · intro he
      exact (ht3k kv hk2).2 (he.symm ▸ hf)
  · intro header vals ru0 f v hrow ht
    unfold recStep
    rw [hrow]
    simp [ht]

theorem claim_C5_witness :
    alookup [("sample_id", "S1"), ("fq1", "a.fq"), ("fq2", "x.fq")] "fq2"
      = some (pyStrip " x.fq ")
    ∧ alookup [("sample_id", "S1"), ("fq1", "a.fq")] "fq2" = none
    ∧ recStep ["sample_id", "fq1", "fq2", "run_id", "flowcell_id", "lane_id", "library_id"]
        ["S1", "a.fq", "", "", "", "", ""] [] "fq2" = Except.ok [] :=
  ⟨claim_C5_amended.1
     ["sample_id", "fq1", "fq2", "run_id", "flowcell_id", "lane_id", "library_id"]
     ["S1", "a.fq", " x.fq ", "", "", "", ""]
     [("sample_id", "S1"), ("fq1", "a.fq"), ("fq2", "x.fq")] "fq2" " x.fq "
     (by decide) (by decide) (by decide) (by decide),
   claim_C5_amended.2.1
     ["sample_id", "fq1", "fq2", "run_id", "flowcell_id", "lane_id", "library_id"]
     ["S1", "a.fq", "", "", "", "", ""]
     [("sample_id", "S1"), ("fq1", "a.fq")] "fq2" (some "")
     (by decide) (by decide) (by decide) (by decide),
   claim_C5_amended.2.2
     ["sample_id", "fq1", "fq2", "run_id", "flowcell_id", "lane_id", "library_id"]
     ["S1", "a.fq", "", "", "", "", ""] [] "fq2" (some "") (by decide) (by decide)⟩

/-- C9: when the header contains the mandatory fields but omits some
recommended field, parsing an input with any non-blank data row aborts
with an error rather than silently skipping the field; a row whose
mandatory cells are truthy fails precisely with the lookup failure naming
the first recommended field whose column is missing. -/
theorem claim_C9_missing_recommended :
    (∀ (headerLine : String) (dataLines : List String),
      (∀ f ∈ MANDATORY_FIELDS, f ∈ csvSplit ',' headerLine) →
      (∃ f ∈ RECOMMENDED_FIELDS, ¬ f ∈ csvSplit ',' headerLine) →
      (∃ d ∈ dataLines, d ≠ "") →
      ∃ e, parse_readunits_from_csv (headerLine :: dataLines) = Except.error e)
    ∧ (∀ (header vals : List String) (v w : Option String),
      (∃ f ∈ RECOMMENDED_FIELDS, ¬ f ∈ header) →
      rowGet header vals "sample_id" = some v → truthy v = true →
      rowGet header vals "fq1" = some w → truthy w = true →
      ∃ f, f ∈ RECOMMENDED_FIELDS ∧ rowGet header vals f = none
        ∧ processRow header vals = Except.error ("KeyError: " ++ f)) := by
  constructor
  · intro headerLine dataLines hmand hmiss hrow
    unfold parse_readunits_from_csv parse_readunits_with_delim
    have hchk : checkHeader (csvSplit ',' headerLine) MANDATORY_FIELDS = Except.ok () := by
      rw [show MANDATORY_FIELDS = ["sample_id", "fq1"] from rfl]
      rw [checkHeader, if_pos (hmand "sample_id" (by decide))]
      rw [checkHeader, if_pos (hmand "fq1" (by decide))]
      rfl
    show ∃ e, (match checkHeader (csvSplit ',' headerLine) MANDATORY_FIELDS with
      | Except.error e => Except.error e
      | Except.ok _ => parseRows (csvSplit ',' headerLine) ','
          (dataLines.filter (fun l => l != ""))) = Except.error e
    rw [hchk]
    obtain ⟨d, hd, hdne⟩ := hrow
    have hdf : d ∈ dataLines.filter (fun l => l != "") :=
      List.mem_filter.mpr ⟨hd, by simp [hdne]⟩
    cases hfl : dataLines.filter (fun l => l != "") with
    | nil =>
      rw [hfl] at hdf
      cases hdf
    | cons r rest =>
      obtain ⟨e1, he1⟩ := processRow_error_of_missing (csvSplit ',' headerLine)
        (csvSplit ',' r) hmiss
      show ∃ e, (match processRow (csvSplit ',' headerLine) (csvSplit ',' r) with
        | Except.error e => Except.error e
        | Except.ok ru =>
          match parseRows (csvSplit ',' headerLine) ',' rest with
          | Except.error e => Except.error e
          | Except.ok rus => Except.ok (ru :: rus)) = Except.error e
      rw [he1]
      exact ⟨e1, rfl⟩
  · intro header vals v w hmiss hv htv hw htw
    have hfold : foldSteps (mandStep header vals) [] MANDATORY_FIELDS
        = Except.ok (([] ++ [("sample_id", pyStrip (v.getD ""))])
            ++ [("fq1", pyStrip (w.getD ""))]) := by
      rw [show MANDATORY_FIELDS = ["sample_id", "fq1"] from rfl]
      simp only [foldSteps, mandStep_truthy header vals [] "sample_id" v hv htv,
        mandStep_truthy header vals ([] ++ [("sample_id", pyStrip (v.getD ""))]) "fq1" w hw htw]
    obtain ⟨f0, hf0, hf0h⟩ := hmiss
    obtain ⟨f2, hf2, hf2n, hf2e⟩ := recFold_missing header vals RECOMMENDED_FIELDS
      (([] ++ [("sample_id", pyStrip (v.getD ""))]) ++ [("fq1", pyStrip (w.getD ""))])
      ⟨f0, hf0, rowGet_none f0 header vals hf0h⟩
    refine ⟨f2, hf2, hf2n, ?_⟩
    unfold processRow
    rw [hfold]
    show (match foldSteps (recStep header vals)
        (([] ++ [("sample_id", pyStrip (v.getD ""))]) ++ [("fq1", pyStrip (w.getD ""))])
        RECOMMENDED_FIELDS with
      | Except.error e => Except.error e
      | Except.ok ru2 => Except.ok (header.foldl (auxStep header vals) ru2))
      = Except.error ("KeyError: " ++ f2)
    rw [hf2e]

theorem claim_C9_witness :
    (∃ e, parse_readunits_from_csv
      ["sample_id,fq1,run_id,flowcell_id,lane_id,library_id", "S1,a.fq,r,f,l,lib"]
      = Except.error e)
    ∧ (∃ f, f ∈ RECOMMENDED_FIELDS
        ∧ rowGet ["sample_id", "fq1", "run_id", "flowcell_id", "lane_id", "library_id"]
            ["S1", "a.fq", "r", "f", "l", "lib"] f = none
        ∧ processRow ["sample_id", "fq1", "run_id", "flowcell_id", "lane_id", "library_id"]
            ["S1", "a.fq", "r", "f", "l", "lib"]
          = Except.error ("KeyError: " ++ f)) :=
  ⟨claim_C9_missing_recommended.1 "sample_id,fq1,run_id,flowcell_id,lane_id,library_id"
     ["S1,a.fq,r,f,l,lib"] (by decide) ⟨"fq2", by decide, by decide⟩
     ⟨"S1,a.fq,r,f,l,lib", by decide, by decide⟩,
   claim_C9_missing_recommended.2
     ["sample_id", "fq1", "run_id", "flowcell_id", "lane_id", "library_id"]
     ["S1", "a.fq", "r", "f", "l", "lib"] (some "S1") (some "a.fq")
     ⟨"fq2", by decide, by decide⟩ (by decide) (by decide) (by decide) (by decide)⟩

end Csv2Yaml
